import Mathlib

/-!
Verification development for the lab-measurement dialogue handler
(`actions.py` / `actions/actions.py`): the numeric extractor, the
statistics engine, the calculation action, the measurement-intake
action and the result store are embedded shallowly and the spec's
properties are settled against them.

Numeric values are modelled exactly: the extractor produces rationals
(decimal literals are exact rationals) and the statistics engine works
over the reals; the binary rounding of Python floats is abstracted away,
as the spec speaks of real numbers throughout.
-/

namespace RasaLab

/-! ## Numeric extractor

`extract_numbers` in the source runs
`re.findall(r"[-+]?(?:\d+\.?\d*|\.\d+)(?:[eE][-+]?\d+)?", text)` and
converts every match with `float`.  The matcher below implements exactly
that regular expression with Python's leftmost, non-overlapping, greedy
`findall` semantics over the list of characters of the text. -/

/-- Greedy match of the mantissa alternation `\d+\.?\d*|\.\d+` at the head
of `s`; returns the matched characters and the remaining characters.
Python tries the left alternative `\d+\.?\d*` first and only falls back to
`\.\d+` when no leading digit is present. -/
def matchMantissa (s : List Char) : Option (List Char × List Char) :=
  if (s.takeWhile Char.isDigit).isEmpty then
    match s with
    | '.' :: r2 =>
      if (r2.takeWhile Char.isDigit).isEmpty then none
      else some ('.' :: r2.takeWhile Char.isDigit, r2.dropWhile Char.isDigit)
    | _ => none
  else
    match s.dropWhile Char.isDigit with
    | '.' :: r2 =>
      some (s.takeWhile Char.isDigit ++ '.' :: r2.takeWhile Char.isDigit,
            r2.dropWhile Char.isDigit)
    | r1 => some (s.takeWhile Char.isDigit, r1)

/-- Greedy match of the optional exponent group `(?:[eE][-+]?\d+)?` at the
head of `s`; returns the matched characters (possibly none) and the rest.
When an `e`/`E` is not followed by digits (after an optional sign) the
group matches empty, as the regex engine backtracks out of it. -/
def matchExpPart (s : List Char) : List Char × List Char :=
  match s with
  | e :: r =>
    if e = 'e' ∨ e = 'E' then
      match r with
      | c :: r2 =>
        if c = '-' ∨ c = '+' then
          if (r2.takeWhile Char.isDigit).isEmpty then ([], s)
          else (e :: c :: r2.takeWhile Char.isDigit, r2.dropWhile Char.isDigit)
        else
          if (r.takeWhile Char.isDigit).isEmpty then ([], s)
          else (e :: r.takeWhile Char.isDigit, r.dropWhile Char.isDigit)
      | [] => ([], s)
    else ([], s)
  | [] => ([], s)

/-- Match of the whole pattern `[-+]?(?:\d+\.?\d*|\.\d+)(?:[eE][-+]?\d+)?`
at the head of `s`.  A leading sign is consumed only when a mantissa
follows it (otherwise the regex backtracks to the unsigned branch, which
then also fails on the sign character). -/
def matchNumber (s : List Char) : Option (List Char × List Char) :=
  match s with
  | [] => none
  | c :: r =>
    if c = '-' ∨ c = '+' then
      match matchMantissa r with
      | some (tok, rest) =>
        some (c :: (tok ++ (matchExpPart rest).1), (matchExpPart rest).2)
      | none => none
    else
      match matchMantissa s with
      | some (tok, rest) =>
        some (tok ++ (matchExpPart rest).1, (matchExpPart rest).2)
      | none => none

theorem dropWhile_length_le (p : Char → Bool) (l : List Char) :
    (l.dropWhile p).length ≤ l.length :=
  (List.dropWhile_sublist _).length_le

theorem dropWhile_length_lt_of_takeWhile_ne (p : Char → Bool) (l : List Char)
    (h : ¬(l.takeWhile p).isEmpty = true) :
    (l.dropWhile p).length < l.length := by
  have hne : l.takeWhile p ≠ [] := fun hh => h (by simp [hh])
  conv_rhs => rw [← List.takeWhile_append_dropWhile p l]
  rw [List.length_append]
  have := List.length_pos.mpr hne
  omega

theorem matchMantissa_rest_lt {s tok rest : List Char}
    (h : matchMantissa s = some (tok, rest)) : rest.length < s.length := by
  unfold matchMantissa at h
  by_cases hds : (s.takeWhile Char.isDigit).isEmpty = true
  · rw [if_pos hds] at h
    split at h
    · rename_i r2
      by_cases h2 : (r2.takeWhile Char.isDigit).isEmpty = true
      · rw [if_pos h2] at h; exact absurd h (by simp)
      · rw [if_neg h2] at h
        simp only [Option.some.injEq, Prod.mk.injEq] at h
        have := dropWhile_length_le Char.isDigit r2
        simp only [← h.2, List.length_cons]
        omega
    · exact absurd h (by simp)
  · rw [if_neg hds] at h
    have hlt := dropWhile_length_lt_of_takeWhile_ne Char.isDigit s hds
    revert h hlt
    match hdw : s.dropWhile Char.isDigit with
    | '.' :: r2 =>
      intro h hlt
      simp only [Option.some.injEq, Prod.mk.injEq] at h
      have := dropWhile_length_le Char.isDigit r2
      simp only [List.length_cons] at hlt
      simp only [← h.2]
      omega
    | [] => intro h hlt
            simp only [Option.some.injEq, Prod.mk.injEq] at h
            simp only [← h.2]; simpa using hlt
    | c :: r2 =>
      intro h hlt
      by_cases hc : c = '.'
      · subst hc
        simp only [Option.some.injEq, Prod.mk.injEq] at h
        have := dropWhile_length_le Char.isDigit r2
        simp only [List.length_cons] at hlt
        simp only [← h.2]
        omega
      · have hred :
            (match c :: r2 with
             | '.' :: r2 =>
               some (s.takeWhile Char.isDigit ++ '.' :: r2.takeWhile Char.isDigit,
                     r2.dropWhile Char.isDigit)
             | r1 => some (s.takeWhile Char.isDigit, r1)) =
            some (s.takeWhile Char.isDigit, c :: r2) := by
          split
          · rename_i heq
            exact absurd heq (by simp [hc])
          · rfl
        rw [hred] at h
        simp only [Option.some.injEq, Prod.mk.injEq] at h
        simp only [← h.2]
        exact hlt

theorem matchExpPart_rest_le (s : List Char) :
    (matchExpPart s).2.length ≤ s.length := by
  match s with
  | [] => simp [matchExpPart]
  | e :: r =>
    by_cases he : e = 'e' ∨ e = 'E'
    · match r with
      | [] => simp [matchExpPart, he]
      | c :: r2 =>
        by_cases hc : c = '-' ∨ c = '+'
        · by_cases hds : (r2.takeWhile Char.isDigit).isEmpty = true
          · simp [matchExpPart, he, hc, hds]
          · simp only [matchExpPart, if_pos he, if_pos hc, if_neg hds]
            have := dropWhile_length_le Char.isDigit r2
            simp only [List.length_cons]
            omega
        · by_cases hds : ((c :: r2).takeWhile Char.isDigit).isEmpty = true
          · simp [matchExpPart, he, hc, hds]
          · simp only [matchExpPart, if_pos he, if_neg hc, if_neg hds]
            have := dropWhile_length_le Char.isDigit (c :: r2)
            simp only [List.length_cons] at *
            omega
    · simp [matchExpPart, he]

theorem matchNumber_rest_lt {s tok rest : List Char}
    (h : matchNumber s = some (tok, rest)) : rest.length < s.length := by
  match s, h with
  | c :: r, h =>
    simp only [matchNumber] at h
    by_cases hc : c = '-' ∨ c = '+'
    · rw [if_pos hc] at h
      revert h
      match hm : matchMantissa r with
      | some (tok2, rest2) =>
        intro h
        simp only [Option.some.injEq, Prod.mk.injEq] at h
        have h1 := matchMantissa_rest_lt hm
        have h2 := matchExpPart_rest_le rest2
        simp only [← h.2, List.length_cons]
        omega
      | none => intro h; exact absurd h (by simp)
    · rw [if_neg hc] at h
      revert h
      match hm : matchMantissa (c :: r) with
      | some (tok2, rest2) =>
        intro h
        simp only [Option.some.injEq, Prod.mk.injEq] at h
        have h1 := matchMantissa_rest_lt hm
        have h2 := matchExpPart_rest_le rest2
        simp only [← h.2]
        omega
      | none => intro h; exact absurd h (by simp)

/-- `re.findall` of the numeric pattern: scan left to right, emit each
leftmost match and continue after it, otherwise advance one character.
The recursion is driven by a fuel argument so that the function reduces
computationally; `findallAux_fuel_irrel` below shows any fuel at least
the length of the text gives the same (complete) scan. -/
def findallAux : Nat → List Char → List (List Char)
  | 0, _ => []
  | fuel + 1, s =>
    match matchNumber s with
    | some (tok, rest) => tok :: findallAux fuel rest
    | none =>
      match s with
      | [] => []
      | _ :: r => findallAux fuel r

theorem findallAux_nil (fuel : Nat) : findallAux fuel [] = [] := by
  cases fuel with
  | zero => rfl
  | succ f => simp [findallAux, matchNumber]

theorem findallAux_fuel_irrel (fuel fuel' : Nat) (s : List Char)
    (h : s.length ≤ fuel) (h' : s.length ≤ fuel') :
    findallAux fuel s = findallAux fuel' s := by
  induction fuel generalizing fuel' s with
  | zero =>
    have : s = [] := List.length_eq_zero.mp (Nat.le_zero.mp h)
    subst this
    rw [findallAux_nil, findallAux_nil]
  | succ f ih =>
    cases fuel' with
    | zero =>
      have : s = [] := List.length_eq_zero.mp (Nat.le_zero.mp h')
      subst this
      rw [findallAux_nil, findallAux_nil]
    | succ f' =>
      rcases hm : matchNumber s with - | ⟨tok, rest⟩
      · cases s with
        | nil => rw [findallAux_nil, findallAux_nil]
        | cons c r =>
          simp only [findallAux, hm]
          exact ih f' r (by simp at h; omega) (by simp at h'; omega)
      · have hlt := matchNumber_rest_lt hm
        simp only [findallAux, hm]
        rw [ih f' rest (by omega) (by omega)]

/-- The complete scan: fuel is the text length, which the step lemmas
show is always sufficient. -/
def findallNums (s : List Char) : List (List Char) :=
  findallAux s.length s

/-- Value of a (possibly empty) list of decimal digit characters. -/
def digitsVal (ds : List Char) : Nat :=
  ds.foldl (fun a c => 10 * a + (c.toNat - 48)) 0

/-- Is this character the exponent marker of a numeric token? -/
def isExpChar (c : Char) : Bool := c == 'e' || c == 'E'

/-- Signed decimal exponent (the characters after the `e`/`E`). -/
def parseExp (e : List Char) : ℤ :=
  match e with
  | '-' :: ds => -(digitsVal ds : ℤ)
  | '+' :: ds => (digitsVal ds : ℤ)
  | ds => (digitsVal ds : ℤ)

/-- Value of a decimal mantissa `digits[.digits]` (either side may be
empty, as in `10.` or `.5`) as an exact rational. -/
def parseMant (m : List Char) : ℚ :=
  (digitsVal (m.takeWhile (fun c => !(c == '.'))) : ℚ) +
    (digitsVal (match m.dropWhile (fun c => !(c == '.')) with
                | _ :: fp => fp
                | [] => []) : ℚ) /
      ((10 : ℚ) ^ (match m.dropWhile (fun c => !(c == '.')) with
                   | _ :: fp => fp
                   | [] => []).length)

/-- Python `float` on an unsigned token `mantissa[(e|E)exp]`. -/
def parseUnsigned (t : List Char) : ℚ :=
  match t.dropWhile (fun c => !(isExpChar c)) with
  | _ :: e => parseMant (t.takeWhile (fun c => !(isExpChar c))) * (10 : ℚ) ^ parseExp e
  | [] => parseMant t

/-- Python `float` on a token matched by the numeric pattern, as an exact
rational.  Every match of the pattern is a valid `float` literal, so the
`try: out.append(float(n)) except ValueError: pass` in the source never
drops a match. -/
def parseTok (t : List Char) : ℚ :=
  match t with
  | '-' :: r => -(parseUnsigned r)
  | '+' :: r => parseUnsigned r
  | _ => parseUnsigned t

/-- `extract_numbers` from the source: `re.findall` of the numeric
pattern over the text, each match converted to a number.  The `if not
text: return []` early exit agrees with scanning the empty character
list. -/
def extractNums (s : List Char) : List ℚ :=
  (findallNums s).map parseTok

/-- `extract_numbers` on a `String` input. -/
def extract_numbers (s : String) : List ℚ :=
  extractNums s.data


/-! ## Python string helpers used by the actions -/

/-- Python `str.find`: index of the first occurrence of `pat` in `s`, by
code points; `none` stands for Python's `-1` ("not found"). -/
def findSub (s pat : List Char) : Option Nat :=
  if pat.isPrefixOf s then some 0
  else
    match s with
    | [] => none
    | _ :: r => (findSub r pat).map (· + 1)

/-- Python `str.lower`, restricted to the character ranges the bot's
texts use: ASCII letters and the Cyrillic block (`А`-`Я`, `Ё`, plus the
Mongolian Cyrillic `Ү` and `Ө`); other characters are unchanged. -/
def pyLower (c : Char) : Char :=
  if 'A' ≤ c ∧ c ≤ 'Z' then Char.ofNat (c.toNat + 32)
  else if 'А' ≤ c ∧ c ≤ 'Я' then Char.ofNat (c.toNat + 32)
  else if c = 'Ё' then 'ё'
  else if c = 'Ү' then 'ү'
  else if c = 'Ө' then 'ө'
  else c

/-- Python `str.lower` over a text. -/
def lowerStr (s : List Char) : List Char := s.map pyLower

/-- The (ASCII) whitespace set of Python `str.strip`. -/
def isSpacePy (c : Char) : Bool :=
  c == ' ' || c == '\t' || c == '\n' || c == '\r' || c == '\x0b' || c == '\x0c'

/-- Python `str.strip`: drop whitespace from both ends. -/
def stripPy (s : List Char) : List Char :=
  ((s.dropWhile isSpacePy).reverse.dropWhile isSpacePy).reverse

/-! ## Measurement-intake action (`ActionStoreMeasurements.run`) -/

/-- The instrument-marker keywords of `ActionStoreMeasurements.run`, in
the order the source iterates over them:
`["багаж", "төхөөрөмж", "масштаб"]`. -/
def markerKeys : List (List Char) :=
  [['б','а','г','а','ж'],
   ['т','ө','х','ө','ө','р','ө','м','ж'],
   ['м','а','с','ш','т','а','б']]

/-- The split-point search of `ActionStoreMeasurements.run`: iterate over
the configured keywords in list order and `break` at the first keyword
whose `find` succeeds, returning that keyword's first-occurrence index. -/
def cutIdx (keys : List (List Char)) (lower : List Char) : Option Nat :=
  match keys with
  | [] => none
  | k :: ks =>
    match findSub lower k with
    | some i => some i
    | none => cutIdx ks lower

/-- The split point as the spec words it: the earliest occurrence by
string position among all configured keywords that occur at all. -/
def cutIdxSpec (keys : List (List Char)) (lower : List Char) : Option Nat :=
  (keys.filterMap (fun k => findSub lower k)).min?

/-- Measurement segment: the text before the split point (the whole text
when no marker occurs). -/
def measPart (text : List Char) : List Char :=
  match cutIdx markerKeys (lowerStr text) with
  | none => text
  | some i => text.take i

/-- Instrument segment: the text from the split point on (empty when no
marker occurs). -/
def instrPart (text : List Char) : List Char :=
  match cutIdx markerKeys (lowerStr text) with
  | none => []
  | some i => text.drop i

/-- Outbound responses of the intake action, by content (the literal
Mongolian message texts are presentation only). -/
inductive StoreMsg where
  | noNumbers
  | gotValues (n : ℕ) (vals : List ℚ)
  | gotInstr (x : ℚ)
  | askInstr

/-- Events returned to the dialogue layer by the intake action: slot
mutations and the follow-up invocation of the calculation action. -/
inductive Ev where
  | setMeasurementsText (s : List Char)
  | setInstrumentError (x : ℚ)
  | followupCalc

/-- `ActionStoreMeasurements.run`: strip the message, split at the
marker found by `cutIdx`, extract numbers from the measurement segment;
on zero numbers utter the "no numeric measurements" response and return
no events; otherwise set `measurements_text` to the trimmed measurement
segment, echo the values, and when the instrument segment also yields a
number set `instrument_error` to the absolute value of its first number
and enqueue the calculation follow-up, else prompt for the instrument
error. -/
def storeRun (raw : List Char) : List StoreMsg × List Ev :=
  let text := stripPy raw
  let nums := extractNums (measPart text)
  if nums.isEmpty then ([.noNumbers], [])
  else
    match extractNums (instrPart text) with
    | i :: _ =>
      ([.gotValues nums.length nums, .gotInstr |i|],
       [.setMeasurementsText (stripPy (measPart text)), .setInstrumentError |i|,
        .followupCalc])
    | [] =>
      ([.gotValues nums.length nums, .askInstr],
       [.setMeasurementsText (stripPy (measPart text))])

/-! ## Statistics engine (`stats`) -/

/-- `stats` from `actions/actions.py`: mean, sample standard deviation
(Bessel `n-1` divisor) and standard error of the mean; `n = 0` returns
all zeros and `n = 1` returns zero deviation and error. -/
noncomputable def stats (values : List ℝ) : ℝ × ℝ × ℝ :=
  if values.length = 0 then (0, 0, 0)
  else
    if values.length < 2 then (values.sum / values.length, 0, 0)
    else
      (values.sum / values.length,
       Real.sqrt ((values.map fun x =>
          (x - values.sum / values.length) ^ 2).sum / ((values.length : ℝ) - 1)),
       Real.sqrt ((values.map fun x =>
          (x - values.sum / values.length) ^ 2).sum / ((values.length : ℝ) - 1)) /
         Real.sqrt values.length)

/-- `stats` from the `actions.py` draft: identical except that the
`n = 0` guard is missing, so `xbar = sum(values) / n` is a division by
zero on the empty list (a `ZeroDivisionError` in Python; in this
embedding the total field division returns 0). -/
noncomputable def statsPy (values : List ℝ) : ℝ × ℝ × ℝ :=
  if values.length < 2 then (values.sum / values.length, 0, 0)
  else
    (values.sum / values.length,
     Real.sqrt ((values.map fun x =>
        (x - values.sum / values.length) ^ 2).sum / ((values.length : ℝ) - 1)),
     Real.sqrt ((values.map fun x =>
        (x - values.sum / values.length) ^ 2).sum / ((values.length : ℝ) - 1)) /
       Real.sqrt values.length)

/-! ## Calculation action (`ActionCalcMeasurementError.run`) -/

/-- A value held by the `instrument_error` slot at calculation time:
either one that `float()` converts to the number `x`, or one on which
`float()` raises (the `except` branch of the source). -/
inductive SlotVal where
  | num (x : ℝ)
  | bad

/-- Outcome of `float(instr)` on a slot value. -/
def toFloat? : SlotVal → Option ℝ
  | .num x => some x
  | .bad => none

/-- The quantities computed by the calculation action for a report. -/
structure CalcReport where
  n : ℕ
  xbar : ℝ
  s : ℝ
  s_mean : ℝ
  delta_stat : ℝ
  delta_total : ℝ
  rel_percent : ℝ
  used_instr : Bool
  instr_f : Option ℝ

/-- The computation of `ActionCalcMeasurementError.run` between the
non-empty-values guard and the report rendering: statistics, optional
quadrature combination with a convertible instrument error, and the
relative error percentage. -/
noncomputable def calcCore (values : List ℝ) (instr : Option SlotVal) : CalcReport :=
  { n := values.length
    xbar := (stats values).1
    s := (stats values).2.1
    s_mean := (stats values).2.2
    delta_stat := (stats values).2.2
    delta_total :=
      match instr.bind toFloat? with
      | some xf => Real.sqrt ((stats values).2.2 ^ 2 + xf ^ 2)
      | none => (stats values).2.2
    rel_percent :=
      if (stats values).1 ≠ 0 then
        |(match instr.bind toFloat? with
          | some xf => Real.sqrt ((stats values).2.2 ^ 2 + xf ^ 2)
          | none => (stats values).2.2) / (stats values).1| * 100
      else 0
    used_instr := (instr.bind toFloat?).isSome
    instr_f := instr.bind toFloat? }

/-- The labeled lines of the calculation action's single outbound
message, by content (formatting to 6 significant digits is presentation
only and not modelled). -/
inductive Line where
  | header
  | nLine (n : ℕ)
  | xbarLine (x : ℝ)
  | sLine (x : ℝ)
  | sMeanLine (x : ℝ)
  | deltaStatLine (x : ℝ)
  | instrLine (x : Option ℝ)
  | deltaTotalLine (x : ℝ)
  | deltaTotalNoInstr (x : ℝ)
  | relLine (x : ℝ)
  | finalLine (x d : ℝ)
  | noData
  | dbWarning (e : String)

/-- The report lines assembled by the calculation action from a
computed `CalcReport`. -/
noncomputable def reportLines (r : CalcReport) : List Line :=
  [.header, .nLine r.n, .xbarLine r.xbar, .sLine r.s, .sMeanLine r.s_mean,
   .deltaStatLine r.delta_stat]
  ++ (if r.used_instr then [.instrLine r.instr_f, .deltaTotalLine r.delta_total]
      else [.deltaTotalNoInstr r.delta_total])
  ++ [.relLine r.rel_percent, .finalLine r.xbar r.delta_total]

/-- The warning line appended when the `try` block around the
persistence calls (`init_db`, `create_run`, `insert_measurements`,
`save_results`) catches an exception `e`; nothing is appended on
success. -/
def persistSuffix : Option String → List Line
  | some e => [.dbWarning e]
  | none => []

/-- The value list the calculation action extracts from the
`measurements_text` slot, as reals. -/
noncomputable def realValues (mt : List Char) : List ℝ :=
  List.map (fun q : ℚ => (q : ℝ)) (extractNums mt)

/-- `ActionCalcMeasurementError.run`: re-extract the values from the
`measurements_text` slot; with no values utter the "no measurement data"
message, otherwise compute the report, attempt persistence (whose
failure, abstracted as `persistFail`, is caught and appended as a
warning line) and deliver the assembled message. -/
noncomputable def calcRun (mt : List Char) (instr : Option SlotVal)
    (persistFail : Option String) : List Line :=
  if realValues mt = [] then [.noData]
  else reportLines (calcCore (realValues mt) instr) ++ persistSuffix persistFail

/-! ## Result store (`save_results` over the `results` table) -/

/-- A row of the `results` table, minus the auto-increment surrogate id
and the wall-clock `created_at` column. -/
structure ResultRow where
  run_id : ℕ
  n : ℕ
  xbar : ℝ
  s : ℝ
  s_mean : ℝ
  delta_stat : ℝ
  delta_total : ℝ
  rel_percent : ℝ
  used_instr : Bool

/-- `save_results`: `INSERT OR REPLACE INTO results ...` against the
schema of `init_db`, whose `results.run_id` column is `UNIQUE`.  SQLite
replace-on-conflict semantics: any row conflicting on `run_id` is
deleted and the new row inserted. -/
def save_results (tbl : List ResultRow) (row : ResultRow) : List ResultRow :=
  (tbl.filter (fun r => r.run_id ≠ row.run_id)) ++ [row]

/-! ## Claims -/

/-- C1: for every non-empty list of reals, `stats` returns the
arithmetic mean as its first component; with exactly one element the
returned sample standard deviation and standard error are both exactly
0; with `n ≥ 2` the sample standard deviation is the square root of the
sum of squared deviations from the mean divided by `n - 1`, and the
standard error is that standard deviation divided by `√n`. -/
theorem stats_spec (values : List ℝ) (h : values ≠ []) :
    (stats values).1 = values.sum / values.length ∧
    (values.length = 1 → (stats values).2.1 = 0 ∧ (stats values).2.2 = 0) ∧
    (2 ≤ values.length →
      (stats values).2.1 =
        Real.sqrt ((values.map fun x =>
          (x - values.sum / values.length) ^ 2).sum / ((values.length : ℝ) - 1)) ∧
      (stats values).2.2 = (stats values).2.1 / Real.sqrt values.length) := by
  have h0 : values.length ≠ 0 := by simpa [List.length_eq_zero] using h
  unfold stats
  rw [if_neg h0]
  by_cases h2 : values.length < 2
  · rw [if_pos h2]
    exact ⟨rfl, fun _ => ⟨rfl, rfl⟩, fun hge => absurd hge (by omega)⟩
  · rw [if_neg h2]
    exact ⟨rfl, fun h1 => absurd h1 (by omega), fun _ => ⟨rfl, rfl⟩⟩

/-- Witness for C1 at the concrete value list `[1, 2]`. -/
theorem stats_spec_witness :
    ([1, 2] : List ℝ) ≠ [] ∧
    ((stats [1, 2]).1 = ([1, 2] : List ℝ).sum / ([1, 2] : List ℝ).length ∧
     (([1, 2] : List ℝ).length = 1 →
        (stats [1, 2]).2.1 = 0 ∧ (stats [1, 2]).2.2 = 0) ∧
     (2 ≤ ([1, 2] : List ℝ).length →
        (stats [1, 2]).2.1 =
          Real.sqrt ((([1, 2] : List ℝ).map fun x =>
            (x - ([1, 2] : List ℝ).sum / ([1, 2] : List ℝ).length) ^ 2).sum /
              ((([1, 2] : List ℝ).length : ℝ) - 1)) ∧
        (stats [1, 2]).2.2 = (stats [1, 2]).2.1 / Real.sqrt ([1, 2] : List ℝ).length)) :=
  ⟨by simp, stats_spec [1, 2] (by simp)⟩

/-- C2: at calculation time, for a non-empty value set, `used_instr` is
true iff the instrument slot holds a value that converts to a number; in
that case the combined error is `√(Δ_stat² + Δ_instr²)`, and otherwise
(slot absent or conversion failed) it equals `Δ_stat` alone. -/
theorem combined_error_spec (values : List ℝ) (instr : Option SlotVal)
    (h : values ≠ []) :
    ((calcCore values instr).used_instr = true ↔
       ∃ v x, instr = some v ∧ toFloat? v = some x) ∧
    (∀ v x, instr = some v → toFloat? v = some x →
       (calcCore values instr).delta_total =
         Real.sqrt ((calcCore values instr).delta_stat ^ 2 + x ^ 2) ∧
       (calcCore values instr).used_instr = true) ∧
    (instr.bind toFloat? = none →
       (calcCore values instr).delta_total = (calcCore values instr).delta_stat ∧
       (calcCore values instr).used_instr = false) := by
  rcases instr with - | v
  · simp [calcCore, toFloat?]
  · cases v with
    | num x =>
      refine ⟨by simp [calcCore, toFloat?], ?_, by simp [calcCore, toFloat?]⟩
      intro v y hv hy
      obtain rfl : SlotVal.num x = v := by simpa using hv
      obtain rfl : x = y := by simpa [toFloat?] using hy
      exact ⟨by simp [calcCore, toFloat?], by simp [calcCore, toFloat?]⟩
    | bad =>
      refine ⟨by simp [calcCore, toFloat?], ?_, by simp [calcCore, toFloat?]⟩
      intro v y hv hy
      obtain rfl : SlotVal.bad = v := by simpa using hv
      simp [toFloat?] at hy

/-- Witness for C2 at the value list `[1, 2]` and instrument value 3. -/
theorem combined_error_spec_witness :
    ([1, 2] : List ℝ) ≠ [] ∧
    (((calcCore [1, 2] (some (SlotVal.num 3))).used_instr = true ↔
        ∃ v x, some (SlotVal.num 3) = some v ∧ toFloat? v = some x) ∧
     (∀ v x, some (SlotVal.num 3) = some v → toFloat? v = some x →
        (calcCore [1, 2] (some (SlotVal.num 3))).delta_total =
          Real.sqrt ((calcCore [1, 2] (some (SlotVal.num 3))).delta_stat ^ 2 + x ^ 2) ∧
        (calcCore [1, 2] (some (SlotVal.num 3))).used_instr = true) ∧
     ((some (SlotVal.num 3)).bind toFloat? = none →
        (calcCore [1, 2] (some (SlotVal.num 3))).delta_total =
          (calcCore [1, 2] (some (SlotVal.num 3))).delta_stat ∧
        (calcCore [1, 2] (some (SlotVal.num 3))).used_instr = false)) :=
  ⟨by simp, combined_error_spec [1, 2] (some (SlotVal.num 3)) (by simp)⟩

/-- C3 counterexample: in the text `"масштаб багаж"` the earliest marker
occurrence by string position is `"масштаб"` at index 0, but the code's
split-point search returns index 8, the first occurrence of `"багаж"`,
because `"багаж"` comes first in the configured keyword list; the
measurement segment then even contains the `"масштаб"` marker itself. -/
theorem cutIdx_counterexample :
    cutIdx markerKeys ['м','а','с','ш','т','а','б',' ','б','а','г','а','ж'] = some 8 ∧
    cutIdxSpec markerKeys ['м','а','с','ш','т','а','б',' ','б','а','г','а','ж'] = some 0 ∧
    cutIdx markerKeys ['м','а','с','ш','т','а','б',' ','б','а','г','а','ж'] ≠
      cutIdxSpec markerKeys ['м','а','с','ш','т','а','б',' ','б','а','г','а','ж'] ∧
    measPart ['м','а','с','ш','т','а','б',' ','б','а','г','а','ж'] =
      ['м','а','с','ш','т','а','б',' '] := by
  exact ⟨by decide, by decide, by decide, by decide⟩

/-- C3 (amended): the split point is the first-occurrence index of the
first keyword in the configured list's order that occurs anywhere in the
text; keywords later in the list are consulted only when every
earlier-listed keyword is absent. -/
theorem cutIdx_first_in_list_order (keys : List (List Char)) (lower : List Char)
    (i : Nat) (h : cutIdx keys lower = some i) :
    ∃ pre k post, keys = pre ++ k :: post ∧ findSub lower k = some i ∧
      ∀ k' ∈ pre, findSub lower k' = none := by
  induction keys with
  | nil => simp [cutIdx] at h
  | cons k ks ih =>
    rw [cutIdx] at h
    rcases hf : findSub lower k with - | j
    · rw [hf] at h
      obtain ⟨pre, k0, post, hk, hfind, hpre⟩ := ih h
      refine ⟨k :: pre, k0, post, by simp [hk], hfind, ?_⟩
      intro k' hk'
      rcases List.mem_cons.mp hk' with h1 | h1
      · subst h1; exact hf
      · exact hpre k' h1
    · rw [hf] at h
      obtain rfl : j = i := by simpa using h
      exact ⟨[], k, ks, rfl, hf, by simp⟩

/-- Witness for the amended C3 at the counterexample text. -/
theorem cutIdx_first_in_list_order_witness :
    cutIdx markerKeys ['м','а','с','ш','т','а','б',' ','б','а','г','а','ж'] = some 8 ∧
    ∃ pre k post, markerKeys = pre ++ k :: post ∧
      findSub ['м','а','с','ш','т','а','б',' ','б','а','г','а','ж'] k = some 8 ∧
      ∀ k' ∈ pre, findSub ['м','а','с','ш','т','а','б',' ','б','а','г','а','ж'] k' = none :=
  ⟨by decide,
   cutIdx_first_in_list_order markerKeys
     ['м','а','с','ш','т','а','б',' ','б','а','г','а','ж'] 8 (by decide)⟩

/-- C4: `extract_numbers` maps `"10.1 10.2, 10.0; 10.3"` to
`[10.1, 10.2, 10.0, 10.3]` in textual order, and maps the empty string
and `"no numbers here"` to the empty list.  It is a pure, deterministic
function of its input string by construction (a Lean function with no
effects). -/
theorem extract_numbers_spec :
    extract_numbers "10.1 10.2, 10.0; 10.3" = [10.1, 10.2, 10.0, 10.3] ∧
    extract_numbers "" = [] ∧
    extract_numbers "no numbers here" = [] := by
  refine ⟨?_, by decide, by decide⟩
  have hs : findallNums "10.1 10.2, 10.0; 10.3".data =
      [['1','0','.','1'], ['1','0','.','2'], ['1','0','.','0'], ['1','0','.','3']] := by
    decide
  show (findallNums "10.1 10.2, 10.0; 10.3".data).map parseTok = _
  rw [hs]
  have e1 : parseTok ['1','0','.','1'] =
      (digitsVal ['1','0'] : ℚ) + (digitsVal ['1'] : ℚ) / (10:ℚ)^(1:ℕ) := rfl
  have e2 : parseTok ['1','0','.','2'] =
      (digitsVal ['1','0'] : ℚ) + (digitsVal ['2'] : ℚ) / (10:ℚ)^(1:ℕ) := rfl
  have e3 : parseTok ['1','0','.','0'] =
      (digitsVal ['1','0'] : ℚ) + (digitsVal ['0'] : ℚ) / (10:ℚ)^(1:ℕ) := rfl
  have e4 : parseTok ['1','0','.','3'] =
      (digitsVal ['1','0'] : ℚ) + (digitsVal ['3'] : ℚ) / (10:ℚ)^(1:ℕ) := rfl
  simp only [List.map, e1, e2, e3, e4]
  norm_num [show digitsVal ['1','0'] = 10 from by decide,
    show digitsVal ['0'] = 0 from by decide,
    show digitsVal ['1'] = 1 from by decide,
    show digitsVal ['2'] = 2 from by decide,
    show digitsVal ['3'] = 3 from by decide]

/-- C5: at calculation time, for a non-empty value set, the reported
relative error percentage is `|Δ_total / mean| × 100` when the mean is
non-zero and exactly 0 when the mean is zero. -/
theorem rel_percent_spec (values : List ℝ) (instr : Option SlotVal)
    (h : values ≠ []) :
    ((calcCore values instr).xbar ≠ 0 →
       (calcCore values instr).rel_percent =
         |(calcCore values instr).delta_total / (calcCore values instr).xbar| * 100) ∧
    ((calcCore values instr).xbar = 0 → (calcCore values instr).rel_percent = 0) := by
  constructor <;> intro hx <;> simp [calcCore] at hx ⊢ <;> simp [hx]

/-- Witness for C5 at the value list `[1, 2]` with no instrument error. -/
theorem rel_percent_spec_witness :
    ([1, 2] : List ℝ) ≠ [] ∧
    (((calcCore [1, 2] none).xbar ≠ 0 →
        (calcCore [1, 2] none).rel_percent =
          |(calcCore [1, 2] none).delta_total / (calcCore [1, 2] none).xbar| * 100) ∧
     ((calcCore [1, 2] none).xbar = 0 → (calcCore [1, 2] none).rel_percent = 0)) :=
  ⟨by simp, rel_percent_spec [1, 2] none (by simp)⟩

/-- C6: an instrument slot value that fails numeric conversion makes the
calculation action behave exactly as if the slot were absent — same
delivered lines for any persistence outcome, `used_instr` false and the
combined error equal to the statistical error — and the action is a
total function, so no exception escapes it. -/
theorem invalid_instr_like_absent (mt : List Char) (p : Option String)
    (values : List ℝ) :
    calcRun mt (some SlotVal.bad) p = calcRun mt none p ∧
    calcCore values (some SlotVal.bad) = calcCore values none ∧
    (calcCore values (some SlotVal.bad)).used_instr = false ∧
    (calcCore values (some SlotVal.bad)).delta_total =
      (calcCore values (some SlotVal.bad)).delta_stat := by
  have hcore : ∀ vs : List ℝ, calcCore vs (some SlotVal.bad) = calcCore vs none := by
    intro vs
    simp [calcCore, toFloat?]
  refine ⟨?_, hcore values, by simp [calcCore, toFloat?], by simp [calcCore, toFloat?]⟩
  unfold calcRun
  rw [hcore]

/-- C7: two `save_results` calls with the same run id leave exactly one
results row for that run id, holding the second call's values
(replace-on-conflict upsert keyed by the unique `run_id`). -/
theorem save_results_upsert (tbl : List ResultRow) (r1 r2 : ResultRow)
    (h : r1.run_id = r2.run_id) :
    (save_results (save_results tbl r1) r2).filter
      (fun r => r.run_id == r2.run_id) = [r2] := by
  induction tbl with
  | nil => simp [save_results, h]
  | cons a t ih =>
    by_cases ha : a.run_id = r2.run_id
    · simpa [save_results, List.filter_cons, h, ha] using ih
    · simpa [save_results, List.filter_cons, h, ha] using ih

/-- Witness for C7: an empty table and two concrete rows sharing run
id 5. -/
theorem save_results_upsert_witness :
    (⟨5, 3, 1, 2, 3, 4, 5, 6, true⟩ : ResultRow).run_id =
      (⟨5, 4, 7, 8, 9, 10, 11, 12, false⟩ : ResultRow).run_id ∧
    (save_results (save_results [] ⟨5, 3, 1, 2, 3, 4, 5, 6, true⟩)
        ⟨5, 4, 7, 8, 9, 10, 11, 12, false⟩).filter
      (fun r => r.run_id = (⟨5, 4, 7, 8, 9, 10, 11, 12, false⟩ : ResultRow).run_id) =
      [⟨5, 4, 7, 8, 9, 10, 11, 12, false⟩] :=
  ⟨rfl, save_results_upsert [] _ _ rfl⟩

/-- C8: when the persistence calls raise at the calculation step (and the
guard has been passed, so persistence is attempted at all), the delivered
message is the full computed report with a warning line appended — the
exception is caught and never propagates (the action is a total
function). -/
theorem storage_failure_report (mt : List Char) (instr : Option SlotVal)
    (e : String) (h : realValues mt ≠ []) :
    calcRun mt instr (some e) = calcRun mt instr none ++ [Line.dbWarning e] := by
  unfold calcRun
  rw [if_neg h, if_neg h]
  simp [persistSuffix]

/-- Witness for C8 at the stored text `"1 2"` and error text
`"db locked"`. -/
theorem storage_failure_report_witness :
    realValues ['1', ' ', '2'] ≠ [] ∧
    calcRun ['1', ' ', '2'] none (some "db locked") =
      calcRun ['1', ' ', '2'] none none ++ [Line.dbWarning "db locked"] := by
  have hne : extractNums ['1', ' ', '2'] ≠ [] := by decide
  have h : realValues ['1', ' ', '2'] ≠ [] := by
    simp only [realValues, ne_eq, List.map_eq_nil_iff]
    exact hne
  exact ⟨h, storage_failure_report ['1', ' ', '2'] none "db locked" h⟩

/-- C9: a measurement-turn message whose measurement segment yields zero
numbers makes the intake action emit only the "no numeric measurements
found" response and return no events at all: no slot mutation, no
follow-up action — and since the intake action never touches the store,
no run, measurement or result record is created. -/
theorem no_numbers_no_events (raw : List Char)
    (h : extractNums (measPart (stripPy raw)) = []) :
    storeRun raw = ([StoreMsg.noNumbers], []) := by
  unfold storeRun
  simp [h]

/-- Witness for C9 at the message `"hello there"`. -/
theorem no_numbers_no_events_witness :
    extractNums (measPart (stripPy "hello there".data)) = [] ∧
    storeRun "hello there".data = ([StoreMsg.noNumbers], []) :=
  ⟨by decide, no_numbers_no_events "hello there".data (by decide)⟩

/-- C10: the calculation action either stops at the empty-values guard
(uttering the no-data message) or proceeds with a non-empty value list,
so `stats` is only ever applied to a list whose length — the divisor of
the unguarded `xbar = sum(values) / n` in the `actions.py` draft — is
non-zero; on every such reachable list the unguarded draft agrees with
the guarded `stats`. -/
theorem stats_guard (mt : List Char) (instr : Option SlotVal) (p : Option String) :
    calcRun mt instr p = [Line.noData] ∨
      (realValues mt ≠ [] ∧
       calcRun mt instr p =
         reportLines (calcCore (realValues mt) instr) ++ persistSuffix p ∧
       ((realValues mt).length : ℝ) ≠ 0 ∧
       statsPy (realValues mt) = stats (realValues mt)) := by
  by_cases h : realValues mt = []
  · left
    simp [calcRun, h]
  · right
    have hlen : (realValues mt).length ≠ 0 := by
      simpa [List.length_eq_zero] using h
    refine ⟨h, by simp [calcRun, h], by exact_mod_cast Nat.cast_ne_zero.mpr hlen, ?_⟩
    unfold stats statsPy
    rw [if_neg hlen]

end RasaLab
